import Mathlib

/-!
Verification of the template-composition engine in
`deployment-templates/generators/merge_templates.py`.

Text is modelled as `List Char`.  Python string primitives used by the
program (`in`, `find`, `replace`, `split`, `join`, `strip`, `startswith`,
`title`, list `insert`) are embedded as structurally recursive functions,
and the merge pipeline (configuration resolution, variable injection,
stage unwrapping, fragment splicing) is translated function by function.
-/

set_option maxRecDepth 100000

abbrev Text := List Char

/-- Coerce a string literal to the `List Char` text model. -/
def str (s : String) : Text := s.data

/-- Python whitespace predicate used by `str.strip`. -/
def pyIsSpace (c : Char) : Bool :=
  c = ' ' || c = '\t' || c = '\n' || c = '\r' || c = '\x0b' || c = '\x0c'

/-- Python `s.strip()`: remove leading and trailing whitespace. -/
def pyStrip (s : Text) : Text :=
  ((s.dropWhile pyIsSpace).reverse.dropWhile pyIsSpace).reverse

/-- Python `s.startswith(n)`: `isPre n s` tests whether `n` is a prefix of `s`. -/
def isPre : Text → Text → Bool
  | [], _ => true
  | _ :: _, [] => false
  | a :: as, b :: bs => if a = b then isPre as bs else false

/-- Occurrence test: the needle `n` occurs in `s` at position `i`. -/
def occAt (n s : Text) (i : Nat) : Bool := isPre n (s.drop i)

/-- Leftmost occurrence of `n` in `s`, as a relative index. -/
def findRel (n : Text) : Text → Option Nat
  | [] => if n = [] then some 0 else none
  | c :: t => if isPre n (c :: t) then some 0 else (findRel n t).map (fun j => j + 1)

/-- Python `s.find(n, st)` (absent result modelled as `none`). -/
def find (n s : Text) (st : Nat) : Option Nat :=
  (findRel n (s.drop st)).map (fun j => j + st)

/-- Python `n in s`. -/
def occurs (n s : Text) : Bool := (find n s 0).isSome

/-- Number of (possibly overlapping) occurrence positions of `n` in `s`. -/
def countOcc (n : Text) : Text → Nat
  | [] => 0
  | c :: t => (if isPre n (c :: t) then 1 else 0) + countOcc n t

/-- Bounded check that no occurrence of `n` in `ab` starting below `k`
crosses position `alen`. -/
def noCrossAux (n ab : Text) (alen : Nat) : Nat → Bool
  | 0 => true
  | i + 1 => ((!occAt n ab i) || decide (i + n.length ≤ alen)) && noCrossAux n ab alen i

/-- No occurrence of `n` in `a ++ b` starting inside `a` crosses into `b`. -/
def noCrossB (n a b : Text) : Bool := noCrossAux n (a ++ b) a.length a.length

/-- Worker for `replaceAll`; the counter skips characters already consumed
by a replaced occurrence. -/
def raAux (old new : Text) : Text → Nat → Text
  | [], _ => []
  | _ :: t, k + 1 => raAux old new t k
  | c :: t, 0 =>
    if old ≠ [] ∧ isPre old (c :: t) = true then
      new ++ raAux old new t (old.length - 1)
    else
      c :: raAux old new t 0

/-- Python `s.replace(old, new)`: replace every non-overlapping occurrence,
scanning left to right. -/
def replaceAll (old new s : Text) : Text := raAux old new s 0

/-- Python `s.split(chr(10))`. -/
def splitNl : Text → List Text
  | [] => [[]]
  | c :: t =>
    if c = '\n' then [] :: splitNl t
    else
      match splitNl t with
      | [] => [[c]]
      | h :: r => (c :: h) :: r

/-- Python `chr(10).join(ls)`. -/
def joinNl : List Text → Text
  | [] => []
  | [x] => x
  | x :: y :: ys => x ++ '\n' :: joinNl (y :: ys)

/-- Python `list.insert(i, x)` (clamping at the end, as Python does). -/
def insertAt : Nat → Text → List Text → List Text
  | 0, x, ls => x :: ls
  | _ + 1, x, [] => [x]
  | n + 1, x, l :: ls => l :: insertAt n x ls

/-- Index of the first element satisfying `p`, if any. -/
def findIdxAux (p : Text → Bool) : List Text → Option Nat
  | [] => none
  | l :: ls => if p l then some 0 else (findIdxAux p ls).map (fun j => j + 1)

/-- One step of Python `str.title`: case-map `c` given whether the previous
character was alphabetic. -/
def titleChar (prevAlpha : Bool) (c : Char) : Char :=
  if c.isAlpha then (if prevAlpha then c.toLower else c.toUpper) else c

/-- Worker for `pyTitle`. -/
def titleAux : Bool → Text → Text
  | _, [] => []
  | p, c :: t => titleChar p c :: titleAux c.isAlpha t

/-- Python `s.title()` (ASCII behaviour). -/
def pyTitle (s : Text) : Text := titleAux false s

/-! ### Configuration Resolver (merge_templates.py lines 17-34) -/

/-- Result of `yaml.safe_load` on an existing config file, restricted to the
one key the program reads: either the YAML document is `null`, or it is a
mapping that may or may not bind `health_check_path`. -/
inductive ParsedYaml where
  | null : ParsedYaml
  | mapping : Option Text → ParsedYaml

/-- Effective `health_check_path` binding of an optional config file after
`yaml.safe_load(f) or \x7b\x7d` and `dict.get`: an absent file, or a file
parsing to YAML null, yields no binding. -/
def configOrEmpty : Option ParsedYaml → Option Text
  | none => none
  | some ParsedYaml.null => none
  | some (ParsedYaml.mapping h) => h

/-- Line 34: `service_override.get(k) or service_config.get(k, defaultPath)`.
A present-but-empty override value is falsy and is skipped. -/
def resolveHealthCheckPath (override base : Option Text) : Text :=
  match override with
  | some v => if v = [] then base.getD (str ("/health")) else v
  | none => base.getD (str ("/health"))

/-! ### Variable Injector (lines 38-51) -/

/-- Line 43: the stripped line starts with a task or host declaration. -/
def declStart (l : Text) : Bool :=
  isPre (str ("- name:")) (pyStrip l) || isPre (str ("- hosts:")) (pyStrip l)

/-- Lines 39-45: index of the first declaration line, defaulting to 0. -/
def insertIndex (ls : List Text) : Nat := (findIdxAux declStart ls).getD 0

/-- Line 48: the injected element (note the trailing newline). -/
def healthVar (hcp : Text) : Text :=
  str ("# Health check path from service configuration\n") ++
    (str ("\x7b% set health_check_path = \x27") ++ hcp ++ str ("\x27 %\x7d")) ++ str ("\n")

/-- Lines 38-50: split into lines, insert the variable element before the
first declaration line, and join back. -/
def injectVar (hcp doc : Text) : Text :=
  joinNl (insertAt (insertIndex (splitNl doc)) (healthVar hcp) (splitNl doc))

/-! ### Stage Unwrapper (lines 83-111) -/

structure Guard where
  startM : Text
  endM : Text
  deriving DecidableEq

def guard1 : Guard :=
  ⟨str ("# SERVICE-SPECIFIC INJECTION POINT: Systemd Service\n    \x7b% if service_systemd_service is defined and service_systemd_service %\x7d"),
   str ("    \x7b% endif %\x7d")⟩

def guard2 : Guard :=
  ⟨str ("    # SERVICE STATUS CHECKS (only if systemd service is enabled)\n    \x7b% if service_systemd_service is defined and service_systemd_service %\x7d"),
   str ("    \x7b% endif %\x7d")⟩

/-- The shared conditional directive wrapped by both stage guards. -/
def ifDirective : Text :=
  str ("\x7b% if service_systemd_service is defined and service_systemd_service %\x7d")

/-- Lines 106-109: the reconstructed leading label for a guard. -/
def labelOf (g : Guard) : Text :=
  if occurs (str ("SERVICE STATUS CHECKS")) g.startM then
    str ("    # SERVICE STATUS CHECKS (only if systemd service is enabled)")
  else
    str ("# SERVICE-SPECIFIC INJECTION POINT: Systemd Service")

/-- Lines 101-110: splice step once the start marker was found at `sp`. -/
def unwrapAt (g : Guard) (doc : Text) (sp : Nat) : Text :=
  match find g.endM doc sp with
  | none => doc
  | some ep =>
    doc.take sp ++ labelOf g ++ ((doc.take ep).drop (sp + g.startM.length)) ++
      doc.drop (ep + g.endM.length)

/-- Lines 95-111: unwrap one guard.  If the start marker is found and the end
marker is found at or after it, splice out the guard keeping the body behind
the appropriate label; otherwise leave the document unchanged. -/
def unwrapOne (g : Guard) (doc : Text) : Text :=
  match find g.startM doc 0 with
  | none => doc
  | some sp => unwrapAt g doc sp

/-- Lines 95-111: both guards, in source order. -/
def unwrapStage (doc : Text) : Text := unwrapOne guard2 (unwrapOne guard1 doc)

/-! ### Marker Catalog and Fragment Splicer (lines 53-160) -/

structure MarkerDef where
  name : Text
  file : Text
  condPat : Text
  simplePat : Text
  deriving DecidableEq

def runtimeInstall : MarkerDef :=
  ⟨str ("runtime_install"), str ("runtime_install.yml.j2"),
   str ("# SERVICE-SPECIFIC INJECTION POINT: Runtime Installation\n    \x7b% if service_runtime_install is defined and service_runtime_install %\x7d\n    \x7b% include \x27service-parts/runtime_install.yml.j2\x27 %\x7d\n    \x7b% endif %\x7d"),
   str ("\x7b% include \x27service-parts/runtime_install.yml.j2\x27 %\x7d")⟩

def dependencyInstall : MarkerDef :=
  ⟨str ("dependency_install"), str ("dependency_install.yml.j2"),
   str ("# SERVICE-SPECIFIC INJECTION POINT: Dependency Installation\n    \x7b% if service_dependency_install is defined and service_dependency_install %\x7d\n    \x7b% include \x27service-parts/dependency_install.yml.j2\x27 %\x7d\n    \x7b% endif %\x7d"),
   str ("\x7b% include \x27service-parts/dependency_install.yml.j2\x27 %\x7d")⟩

def buildTasks : MarkerDef :=
  ⟨str ("build_tasks"), str ("build_tasks.yml.j2"),
   str ("# SERVICE-SPECIFIC INJECTION POINT: Build Tasks\n    \x7b% if service_build_tasks is defined and service_build_tasks %\x7d\n    \x7b% include \x27service-parts/build_tasks.yml.j2\x27 %\x7d\n    \x7b% endif %\x7d"),
   str ("\x7b% include \x27service-parts/build_tasks.yml.j2\x27 %\x7d")⟩

def redeployTasks : MarkerDef :=
  ⟨str ("redeploy_tasks"), str ("redeploy_tasks.yml.j2"),
   str ("# SERVICE-SPECIFIC INJECTION POINT: Redeployment Tasks\n    \x7b% if service_redeploy_tasks is defined and service_redeploy_tasks %\x7d\n    \x7b% include \x27service-parts/redeploy_tasks.yml.j2\x27 %\x7d\n    \x7b% endif %\x7d"),
   str ("\x7b% include \x27service-parts/redeploy_tasks.yml.j2\x27 %\x7d")⟩

def healthCheck : MarkerDef :=
  ⟨str ("health_check"), str ("health_check.yml.j2"),
   str ("# SERVICE-SPECIFIC INJECTION POINT: Health Check\n    \x7b% if service_health_check is defined and service_health_check %\x7d\n    \x7b% include \x27service-parts/health_check.yml.j2\x27 %\x7d\n    \x7b% endif %\x7d"),
   str ("\x7b% include \x27service-parts/health_check.yml.j2\x27 %\x7d")⟩

/-- The catalog, in the source dictionary's insertion order. -/
def markers : List MarkerDef :=
  [runtimeInstall, dependencyInstall, buildTasks, redeployTasks, healthCheck]

/-- All ten marker patterns. -/
def allPats : List Text :=
  [runtimeInstall.condPat, runtimeInstall.simplePat,
   dependencyInstall.condPat, dependencyInstall.simplePat,
   buildTasks.condPat, buildTasks.simplePat,
   redeployTasks.condPat, redeployTasks.simplePat,
   healthCheck.condPat, healthCheck.simplePat]

/-- Lines 130-133: indent a non-blank fragment line by four spaces, map a
blank line to the empty line. -/
def indentLine (l : Text) : Text :=
  if pyStrip l = [] then [] else str ("    ") ++ l

/-- Lines 127-134: strip the fragment, split into lines, indent each. -/
def indentFragment (c : Text) : Text :=
  joinNl ((splitNl (pyStrip c)).map indentLine)

/-- Line 135: label derived from the marker name, underscores to spaces,
title-cased, behind a fixed 4-space-indented prefix. -/
def labelFor (m : MarkerDef) : Text :=
  str ("    # SERVICE-SPECIFIC INJECTION POINT: ") ++
    pyTitle (replaceAll (str ("_")) (str (" ")) m.name)

/-- Lines 118-160: process one marker given the optional fragment content. -/
def processMarker (m : MarkerDef) (frag : Option Text) (doc : Text) : Text :=
  match frag with
  | some content =>
    if occurs m.condPat doc then
      replaceAll m.condPat (labelFor m ++ str ("\n") ++ indentFragment content) doc
    else if occurs m.simplePat doc then
      replaceAll m.simplePat (indentFragment content) doc
    else doc
  | none =>
    if occurs m.condPat doc then replaceAll m.condPat [] doc
    else if occurs m.simplePat doc then replaceAll m.simplePat [] doc
    else doc

/-- Lines 114-160: fold the splicer over a list of markers with their
fragment contents. -/
def spliceList (l : List (MarkerDef × Option Text)) (doc : Text) : Text :=
  l.foldl (fun d mf => processMarker mf.1 mf.2 d) doc

/-- The five-marker splicing stage with explicit fragment contents. -/
def spliceFrags (fr fd fb fre fh : Option Text) (doc : Text) : Text :=
  spliceList
    [(runtimeInstall, fr), (dependencyInstall, fd), (buildTasks, fb),
     (redeployTasks, fre), (healthCheck, fh)] doc

/-- The splicing stage when the service-type directory holds none of the
five fragment files. -/
def spliceNoFrags (doc : Text) : Text :=
  spliceFrags none none none none none doc

/-- Lines 9-167: the whole merge pipeline, from base template text and the
parsed optional config files to the output text.  The service name is
accepted and ignored, as in the source. -/
def mergeTemplate (baseTemplate : Text) (cfg ovr : Option ParsedYaml)
    (fr fd fb fre fh : Option Text) (_serviceName : Text) : Text :=
  let hcp := resolveHealthCheckPath (configOrEmpty ovr) (configOrEmpty cfg)
  spliceFrags fr fd fb fre fh (unwrapStage (injectVar hcp baseTemplate))

/-! ### Occurrence toolkit -/

theorem isPre_append (n a b : Text) (h : isPre n a = true) : isPre n (a ++ b) = true := by
  induction n generalizing a with
  | nil => simp [isPre]
  | cons c cs ih =>
    cases a with
    | nil => simp [isPre] at h
    | cons x xs =>
      simp only [List.cons_append, isPre] at h ⊢
      by_cases hc : c = x
      · rw [if_pos hc] at h ⊢
        exact ih xs h
      · rw [if_neg hc] at h
        exact absurd h (by simp)

theorem isPre_self_append (n b : Text) : isPre n (n ++ b) = true := by
  induction n with
  | nil => simp [isPre]
  | cons c cs ih => simp [isPre, ih]

theorem isPre_append_fit (n a b : Text) (h : n.length ≤ a.length) :
    isPre n (a ++ b) = isPre n a := by
  induction n generalizing a with
  | nil => simp [isPre]
  | cons c cs ih =>
    cases a with
    | nil => simp at h
    | cons x xs =>
      simp only [List.cons_append, isPre]
      by_cases hc : c = x
      · rw [if_pos hc, if_pos hc]
        exact ih xs (by simpa using h)
      · rw [if_neg hc, if_neg hc]

theorem drop_append_le (a b : Text) (i : Nat) (h : i ≤ a.length) :
    (a ++ b).drop i = a.drop i ++ b := by
  induction a generalizing i with
  | nil =>
    have : i = 0 := by simpa using h
    simp [this]
  | cons x xs ih =>
    cases i with
    | zero => simp
    | succ j =>
      simp only [List.cons_append, List.drop_succ_cons]
      exact ih j (by simpa using h)

theorem occAt_zero (n s : Text) : occAt n s 0 = isPre n s := by simp [occAt]

theorem occAt_cons_succ (n : Text) (c : Char) (t : Text) (i : Nat) :
    occAt n (c :: t) (i + 1) = occAt n t i := by
  simp [occAt]

theorem occAt_drop (n s : Text) (st j : Nat) :
    occAt n (s.drop st) j = occAt n s (st + j) := by
  simp [occAt, List.drop_drop]

theorem occAt_nil (n : Text) (hn : n ≠ []) (i : Nat) : occAt n [] i = false := by
  cases n with
  | nil => exact absurd rfl hn
  | cons c cs => simp [occAt, isPre]

theorem occAt_append_left (n a b : Text) (i : Nat) (h : occAt n a i = true) :
    occAt n (a ++ b) i = true := by
  unfold occAt at h ⊢
  by_cases hi : i ≤ a.length
  · rw [drop_append_le a b i hi]
    exact isPre_append _ _ _ h
  · have hd : a.drop i = [] := List.drop_eq_nil_of_le (by omega)
    rw [hd] at h
    cases n with
    | nil => simp [isPre]
    | cons c cs => simp [isPre] at h

theorem occAt_append_fit (n a b : Text) (i : Nat) (h : i + n.length ≤ a.length) :
    occAt n (a ++ b) i = occAt n a i := by
  unfold occAt
  rw [drop_append_le a b i (by omega)]
  exact isPre_append_fit _ _ _ (by rw [List.length_drop]; omega)

theorem occAt_append_right (n a b : Text) (j : Nat) :
    occAt n (a ++ b) (a.length + j) = occAt n b j := by
  unfold occAt
  have : (a ++ b).drop (a.length + j) = b.drop j := by
    rw [← List.drop_drop, List.drop_left]
  rw [this]

theorem countOcc_zero_iff (n : Text) (hn : n ≠ []) (s : Text) :
    countOcc n s = 0 ↔ ∀ i, occAt n s i = false := by
  induction s with
  | nil =>
    constructor
    · intro _ i
      exact occAt_nil n hn i
    · intro _
      rfl
  | cons c t ih =>
    simp only [countOcc]
    constructor
    · intro h i
      by_cases hp : isPre n (c :: t) = true
      · rw [if_pos hp] at h
        omega
      · have h0 : isPre n (c :: t) = false := by simpa using hp
        rw [h0] at h
        simp only [if_false, Bool.false_eq_true] at h
        cases i with
        | zero => rw [occAt_zero]; exact h0
        | succ j =>
          rw [occAt_cons_succ]
          exact (ih.mp (by omega)) j
    · intro h
      have h0 : isPre n (c :: t) = false := by
        have := h 0
        rwa [occAt_zero] at this
      rw [h0]
      simp only [Bool.false_eq_true, if_false, Nat.zero_add]
      exact ih.mpr fun i => by
        have := h (i + 1)
        rwa [occAt_cons_succ] at this

theorem countOcc_append_pt (n b : Text) :
    ∀ a : Text, (∀ i, i < a.length → occAt n (a ++ b) i = true → i + n.length ≤ a.length) →
      countOcc n (a ++ b) = countOcc n a + countOcc n b := by
  intro a
  induction a with
  | nil => simp [countOcc]
  | cons x xs ih =>
    intro h
    simp only [List.cons_append, countOcc, List.append_eq]
    have hstep : (if isPre n (x :: (xs ++ b)) then (1 : Nat) else 0) =
        (if isPre n (x :: xs) then (1 : Nat) else 0) := by
      by_cases hp : isPre n (x :: xs) = true
      · have : isPre n ((x :: xs) ++ b) = true := isPre_append _ _ _ hp
        rw [List.cons_append] at this
        rw [this, hp]
      · have hp' : isPre n (x :: xs) = false := by simpa using hp
        by_cases hq : isPre n (x :: (xs ++ b)) = true
        · have h0 := h 0 (by simp) (by rw [occAt_zero, List.cons_append]; exact hq)
          have hfit := isPre_append_fit n (x :: xs) b (by simpa using h0)
          rw [List.cons_append] at hfit
          rw [hq, hp'] at hfit
          exact absurd hfit (by simp)
        · have hq' : isPre n (x :: (xs ++ b)) = false := by simpa using hq
          rw [hq', hp']
    rw [hstep]
    have ih' := ih fun i hi hocc => by
      have := h (i + 1) (by simp; omega)
        (by rw [List.cons_append, occAt_cons_succ]; exact hocc)
      simp at this ⊢
      omega
    rw [ih']
    omega


theorem noCrossAux_elim (n ab : Text) (alen : Nat) :
    ∀ k, noCrossAux n ab alen k = true →
      ∀ i, i < k → occAt n ab i = true → i + n.length ≤ alen := by
  intro k
  induction k with
  | zero => intro _ i hi; omega
  | succ m ih =>
    intro h i hi hocc
    simp only [noCrossAux, Bool.and_eq_true, Bool.or_eq_true, Bool.not_eq_true',
      decide_eq_true_eq] at h
    rcases Nat.lt_succ_iff_lt_or_eq.mp hi with hlt | heq
    · exact ih h.2 i hlt hocc
    · subst heq
      rcases h.1 with hfalse | hle
      · rw [hocc] at hfalse; exact absurd hfalse (by simp)
      · exact hle

theorem countOcc_append_of_noCrossB (n a b : Text) (h : noCrossB n a b = true) :
    countOcc n (a ++ b) = countOcc n a + countOcc n b :=
  countOcc_append_pt n b a (noCrossAux_elim n (a ++ b) a.length a.length h)

theorem findRel_none_elim (n : Text) :
    ∀ s, findRel n s = none → ∀ i, occAt n s i = false := by
  intro s
  induction s with
  | nil =>
    intro h i
    by_cases hn : n = []
    · subst hn; simp [findRel] at h
    · exact occAt_nil n hn i
  | cons c t ih =>
    intro h i
    simp only [findRel] at h
    by_cases hp : isPre n (c :: t) = true
    · rw [if_pos hp] at h; exact absurd h (by simp)
    · have hp' : isPre n (c :: t) = false := by simpa using hp
      rw [if_neg (by simp [hp'])] at h
      have ht : findRel n t = none := by
        cases hft : findRel n t
        · rfl
        · rw [hft] at h; simp at h
      cases i with
      | zero => rw [occAt_zero]; exact hp'
      | succ j => rw [occAt_cons_succ]; exact ih ht j

theorem findRel_some_elim (n : Text) :
    ∀ s k, findRel n s = some k →
      occAt n s k = true ∧ ∀ i, i < k → occAt n s i = false := by
  intro s
  induction s with
  | nil =>
    intro k h
    by_cases hn : n = []
    · subst hn
      simp [findRel] at h
      subst h
      exact ⟨by simp [occAt, isPre], fun i hi => by omega⟩
    · simp [findRel, hn] at h
  | cons c t ih =>
    intro k h
    simp only [findRel] at h
    by_cases hp : isPre n (c :: t) = true
    · rw [if_pos hp] at h
      have hk : k = 0 := by simpa using h.symm
      subst hk
      exact ⟨by rw [occAt_zero]; exact hp, fun i hi => by omega⟩
    · have hp' : isPre n (c :: t) = false := by simpa using hp
      rw [if_neg (by simp [hp'])] at h
      rcases Option.map_eq_some'.mp h with ⟨j, hj, hjk⟩
      rcases ih j hj with ⟨h1, h2⟩
      subst hjk
      constructor
      · rw [occAt_cons_succ]; exact h1
      · intro i hi
        cases i with
        | zero => rw [occAt_zero]; exact hp'
        | succ i' => rw [occAt_cons_succ]; exact h2 i' (by omega)

theorem find_some_elim (n s : Text) (st k : Nat) (h : find n s st = some k) :
    st ≤ k ∧ occAt n s k = true ∧ ∀ i, st ≤ i → i < k → occAt n s i = false := by
  unfold find at h
  rcases Option.map_eq_some'.mp h with ⟨j, hj, hjk⟩
  rcases findRel_some_elim n (s.drop st) j hj with ⟨h1, h2⟩
  subst hjk
  refine ⟨by omega, ?_, ?_⟩
  · rw [occAt_drop] at h1
    rwa [Nat.add_comm st j] at h1
  · intro i hst hik
    have := h2 (i - st) (by omega)
    rw [occAt_drop] at this
    have heq : st + (i - st) = i := by omega
    rwa [heq] at this

theorem find_none_elim (n s : Text) (st : Nat) (h : find n s st = none) :
    ∀ i, st ≤ i → occAt n s i = false := by
  unfold find at h
  have hr : findRel n (s.drop st) = none := by
    cases hft : findRel n (s.drop st)
    · rfl
    · rw [hft] at h; simp at h
  intro i hi
  have := findRel_none_elim n (s.drop st) hr (i - st)
  rw [occAt_drop] at this
  have heq : st + (i - st) = i := by omega
  rwa [heq] at this

theorem occurs_true_of_occAt (n s : Text) (i : Nat) (h : occAt n s i = true) :
    occurs n s = true := by
  unfold occurs
  cases hf : find n s 0
  · have := find_none_elim n s 0 hf i (by omega)
    rw [h] at this
    exact absurd this (by simp)
  · simp

theorem occurs_false_of_countOcc (n s : Text) (hn : n ≠ []) (h : countOcc n s = 0) :
    occurs n s = false := by
  have hpt := (countOcc_zero_iff n hn s).mp h
  unfold occurs
  cases hf : find n s 0
  · simp
  · rename_i k
    rcases find_some_elim n s 0 k hf with ⟨_, hocc, _⟩
    rw [hpt k] at hocc
    exact absurd hocc (by simp)

theorem raAux_skip (old new : Text) :
    ∀ (t : Text) (k : Nat), raAux old new t k = raAux old new (t.drop k) 0 := by
  intro t
  induction t with
  | nil => intro k; cases k <;> simp [raAux]
  | cons c t ih =>
    intro k
    cases k with
    | zero => simp
    | succ j =>
      show raAux old new t j = _
      rw [List.drop_succ_cons]
      exact ih j

theorem raAux_no_occ (old new : Text) :
    ∀ s, (∀ i, occAt old s i = false) → raAux old new s 0 = s := by
  intro s
  induction s with
  | nil => intro _; rfl
  | cons c t ih =>
    intro h
    have h0 : isPre old (c :: t) = false := by
      have := h 0
      rwa [occAt_zero] at this
    show (if old ≠ [] ∧ isPre old (c :: t) = true then
        new ++ raAux old new t (old.length - 1) else c :: raAux old new t 0) = c :: t
    rw [if_neg (by rw [h0]; simp)]
    have := ih fun i => by
      have := h (i + 1)
      rwa [occAt_cons_succ] at this
    rw [this]

theorem replaceAll_no_occ (old new s : Text) (h : ∀ i, occAt old s i = false) :
    replaceAll old new s = s :=
  raAux_no_occ old new s h

theorem raAux_decomp (old new b : Text) (hne : old ≠ []) :
    ∀ a, (∀ i, i < a.length → occAt old (a ++ (old ++ b)) i = false) →
      raAux old new (a ++ (old ++ b)) 0 = a ++ (new ++ raAux old new b 0) := by
  intro a
  induction a with
  | nil =>
    intro _
    simp only [List.nil_append]
    obtain ⟨o, os, rfl⟩ : ∃ o os, old = o :: os := by
      cases old with
      | nil => exact absurd rfl hne
      | cons o os => exact ⟨o, os, rfl⟩
    show (if (o :: os) ≠ [] ∧ isPre (o :: os) (o :: (os ++ b)) = true then
        new ++ raAux (o :: os) new (os ++ b) ((o :: os).length - 1)
      else o :: raAux (o :: os) new (os ++ b) 0) = new ++ raAux (o :: os) new b 0
    have hself : isPre (o :: os) (o :: (os ++ b)) = true := by
      have := isPre_self_append (o :: os) b
      rwa [List.cons_append] at this
    rw [if_pos ⟨hne, hself⟩]
    rw [raAux_skip]
    have hlen : (o :: os).length - 1 = os.length := by simp
    rw [hlen, List.drop_left]
  | cons x xs ih =>
    intro h
    have h0 : isPre old (x :: (xs ++ (old ++ b))) = false := by
      have := h 0 (by simp)
      rw [occAt_zero, List.cons_append] at this
      exact this
    show (if old ≠ [] ∧ isPre old (x :: (xs ++ (old ++ b))) = true then
        new ++ raAux old new (xs ++ (old ++ b)) (old.length - 1)
      else x :: raAux old new (xs ++ (old ++ b)) 0) = (x :: xs) ++ (new ++ raAux old new b 0)
    rw [if_neg (by rw [h0]; simp)]
    rw [ih fun i hi => by
      have := h (i + 1) (by simp; omega)
      rw [List.cons_append, occAt_cons_succ] at this
      exact this]
    simp

theorem replaceAll_decomp (old new a b : Text) (hne : old ≠ [])
    (h : ∀ i, i < a.length → occAt old (a ++ old ++ b) i = false)
    (hb : ∀ i, occAt old b i = false) :
    replaceAll old new (a ++ old ++ b) = a ++ new ++ b := by
  unfold replaceAll
  rw [List.append_assoc]
  rw [raAux_decomp old new b hne a (by rw [← List.append_assoc]; exact h)]
  rw [raAux_no_occ old new b hb]
  rw [← List.append_assoc]

/-! ### Splicer step lemmas -/

theorem processMarker_skip (m : MarkerDef) (f : Option Text) (d : Text)
    (h1 : occurs m.condPat d = false) (h2 : occurs m.simplePat d = false) :
    processMarker m f d = d := by
  cases f <;> simp [processMarker, h1, h2]

theorem pat_first_occ_elim (p d : Text) (alen : Nat)
    (hfind : find p d 0 = some alen) :
    ∀ i, i < alen → occAt p d i = false := by
  intro i hi
  rcases find_some_elim p d 0 alen hfind with ⟨_, _, hmin⟩
  exact hmin i (by omega) hi

theorem processMarker_none_cond (m : MarkerDef) (a b : Text) (hne : m.condPat ≠ [])
    (hfind : find m.condPat (a ++ m.condPat ++ b) 0 = some a.length)
    (hb : countOcc m.condPat b = 0) :
    processMarker m none (a ++ m.condPat ++ b) = a ++ b := by
  have hocc : occurs m.condPat (a ++ m.condPat ++ b) = true := by
    rcases find_some_elim _ _ _ _ hfind with ⟨_, h1, _⟩
    exact occurs_true_of_occAt _ _ _ h1
  show (if occurs m.condPat (a ++ m.condPat ++ b) = true then
      replaceAll m.condPat [] (a ++ m.condPat ++ b)
    else if occurs m.simplePat (a ++ m.condPat ++ b) = true then
      replaceAll m.simplePat [] (a ++ m.condPat ++ b)
    else (a ++ m.condPat ++ b)) = a ++ b
  rw [if_pos hocc]
  rw [replaceAll_decomp m.condPat [] a b hne (pat_first_occ_elim _ _ _ hfind)
    ((countOcc_zero_iff m.condPat hne b).mp hb)]
  simp

theorem processMarker_none_simple (m : MarkerDef) (a b : Text) (hne : m.simplePat ≠ [])
    (hnc : occurs m.condPat (a ++ m.simplePat ++ b) = false)
    (hfind : find m.simplePat (a ++ m.simplePat ++ b) 0 = some a.length)
    (hb : countOcc m.simplePat b = 0) :
    processMarker m none (a ++ m.simplePat ++ b) = a ++ b := by
  have hocc : occurs m.simplePat (a ++ m.simplePat ++ b) = true := by
    rcases find_some_elim _ _ _ _ hfind with ⟨_, h1, _⟩
    exact occurs_true_of_occAt _ _ _ h1
  show (if occurs m.condPat (a ++ m.simplePat ++ b) = true then
      replaceAll m.condPat [] (a ++ m.simplePat ++ b)
    else if occurs m.simplePat (a ++ m.simplePat ++ b) = true then
      replaceAll m.simplePat [] (a ++ m.simplePat ++ b)
    else (a ++ m.simplePat ++ b)) = a ++ b
  rw [if_neg (by rw [hnc]; simp), if_pos hocc]
  rw [replaceAll_decomp m.simplePat [] a b hne (pat_first_occ_elim _ _ _ hfind)
    ((countOcc_zero_iff m.simplePat hne b).mp hb)]
  simp

theorem processMarker_some_cond (m : MarkerDef) (c a b : Text) (hne : m.condPat ≠ [])
    (hfind : find m.condPat (a ++ m.condPat ++ b) 0 = some a.length)
    (hb : countOcc m.condPat b = 0) :
    processMarker m (some c) (a ++ m.condPat ++ b) =
      a ++ (labelFor m ++ str ("\n") ++ indentFragment c) ++ b := by
  have hocc : occurs m.condPat (a ++ m.condPat ++ b) = true := by
    rcases find_some_elim _ _ _ _ hfind with ⟨_, h1, _⟩
    exact occurs_true_of_occAt _ _ _ h1
  show (if occurs m.condPat (a ++ m.condPat ++ b) = true then
      replaceAll m.condPat (labelFor m ++ str ("\n") ++ indentFragment c) (a ++ m.condPat ++ b)
    else if occurs m.simplePat (a ++ m.condPat ++ b) = true then
      replaceAll m.simplePat (indentFragment c) (a ++ m.condPat ++ b)
    else (a ++ m.condPat ++ b)) = a ++ (labelFor m ++ str ("\n") ++ indentFragment c) ++ b
  rw [if_pos hocc]
  rw [replaceAll_decomp m.condPat _ a b hne (pat_first_occ_elim _ _ _ hfind)
    ((countOcc_zero_iff m.condPat hne b).mp hb)]

theorem processMarker_some_simple (m : MarkerDef) (c a b : Text) (hne : m.simplePat ≠ [])
    (hnc : occurs m.condPat (a ++ m.simplePat ++ b) = false)
    (hfind : find m.simplePat (a ++ m.simplePat ++ b) 0 = some a.length)
    (hb : countOcc m.simplePat b = 0) :
    processMarker m (some c) (a ++ m.simplePat ++ b) = a ++ indentFragment c ++ b := by
  have hocc : occurs m.simplePat (a ++ m.simplePat ++ b) = true := by
    rcases find_some_elim _ _ _ _ hfind with ⟨_, h1, _⟩
    exact occurs_true_of_occAt _ _ _ h1
  show (if occurs m.condPat (a ++ m.simplePat ++ b) = true then
      replaceAll m.condPat (labelFor m ++ str ("\n") ++ indentFragment c) (a ++ m.simplePat ++ b)
    else if occurs m.simplePat (a ++ m.simplePat ++ b) = true then
      replaceAll m.simplePat (indentFragment c) (a ++ m.simplePat ++ b)
    else (a ++ m.simplePat ++ b)) = a ++ indentFragment c ++ b
  rw [if_neg (by rw [hnc]; simp), if_pos hocc]
  rw [replaceAll_decomp m.simplePat _ a b hne (pat_first_occ_elim _ _ _ hfind)
    ((countOcc_zero_iff m.simplePat hne b).mp hb)]

/-! ### Line-splitting toolkit -/

theorem splitNl_ne_nil : ∀ s : Text, splitNl s ≠ [] := by
  intro s
  induction s with
  | nil => simp [splitNl]
  | cons c t ih =>
    simp only [splitNl]
    by_cases hc : c = '\n'
    · rw [if_pos hc]; simp
    · rw [if_neg hc]
      cases h : splitNl t <;> simp

theorem splitNl_no_nl : ∀ (s l : Text), l ∈ splitNl s → '\n' ∉ l := by
  intro s
  induction s with
  | nil =>
    intro l hl
    simp [splitNl] at hl
    subst hl
    simp
  | cons c t ih =>
    intro l hl
    simp only [splitNl] at hl
    by_cases hc : c = '\n'
    · rw [if_pos hc] at hl
      rcases List.mem_cons.mp hl with h | h
      · subst h; simp
      · exact ih l h
    · rw [if_neg hc] at hl
      cases hst : splitNl t with
      | nil => exact absurd hst (splitNl_ne_nil t)
      | cons h r =>
        rw [hst] at hl
        rcases List.mem_cons.mp hl with hh | hh
        · subst hh
          intro hmem
          rcases List.mem_cons.mp hmem with h1 | h1
          · exact hc h1.symm
          · exact ih h (hst ▸ List.mem_cons_self h r) h1
        · exact ih l (hst ▸ List.mem_cons_of_mem h hh)

theorem splitNl_single (x : Text) (hx : '\n' ∉ x) : splitNl x = [x] := by
  induction x with
  | nil => rfl
  | cons c t ih =>
    have hc : ¬(c = '\n') := fun h => hx (by rw [h]; exact List.mem_cons_self _ t)
    have ht : '\n' ∉ t := fun h => hx (List.mem_cons_of_mem c h)
    simp only [splitNl, if_neg hc, ih ht]

theorem splitNl_nl_cons (x r : Text) (hx : '\n' ∉ x) :
    splitNl (x ++ '\n' :: r) = x :: splitNl r := by
  induction x with
  | nil =>
    show splitNl ('\n' :: r) = [] :: splitNl r
    simp [splitNl]
  | cons c t ih =>
    have hc : ¬(c = '\n') := fun h => hx (by rw [h]; exact List.mem_cons_self _ t)
    have ht : '\n' ∉ t := fun h => hx (List.mem_cons_of_mem c h)
    rw [List.cons_append]
    simp only [splitNl, if_neg hc, ih ht]

theorem joinNl_roundtrip :
    ∀ ls : List Text, ls ≠ [] → (∀ l ∈ ls, '\n' ∉ l) → splitNl (joinNl ls) = ls := by
  intro ls
  induction ls with
  | nil => intro h; exact absurd rfl h
  | cons x ys ih =>
    intro _ hmem
    cases ys with
    | nil => exact splitNl_single x (hmem x (List.mem_cons_self x []))
    | cons y ys' =>
      show splitNl (x ++ '\n' :: joinNl (y :: ys')) = x :: y :: ys'
      rw [splitNl_nl_cons x _ (hmem x (List.mem_cons_self x _))]
      rw [ih (by simp) fun l hl => hmem l (List.mem_cons_of_mem x hl)]

theorem insertAt_ne_nil (k : Nat) (x : Text) (ls : List Text) : insertAt k x ls ≠ [] := by
  cases k <;> cases ls <;> simp [insertAt]

theorem splitNl_insert (c1 c2 : Text) (h1 : '\n' ∉ c1) (h2 : '\n' ∉ c2) :
    ∀ (k : Nat) (L : List Text), k ≤ L.length → (∀ l ∈ L, '\n' ∉ l) →
      splitNl (joinNl (insertAt k (c1 ++ '\n' :: (c2 ++ ['\n'])) L)) =
        L.take k ++ [c1, c2, []] ++ L.drop k := by
  intro k
  induction k with
  | zero =>
    intro L _ hmem
    cases L with
    | nil =>
      show splitNl (c1 ++ '\n' :: (c2 ++ ['\n'])) = [c1, c2, []]
      rw [splitNl_nl_cons c1 _ h1]
      rw [show (c2 ++ ['\n'] : Text) = c2 ++ '\n' :: [] from rfl, splitNl_nl_cons c2 [] h2]
      rfl
    | cons y ys =>
      show splitNl ((c1 ++ '\n' :: (c2 ++ ['\n'])) ++ '\n' :: joinNl (y :: ys)) =
        [] ++ [c1, c2, []] ++ y :: ys
      have hre : (c1 ++ '\n' :: (c2 ++ ['\n'])) ++ '\n' :: joinNl (y :: ys)
          = c1 ++ '\n' :: (c2 ++ '\n' :: ('\n' :: joinNl (y :: ys))) := by simp
      rw [hre, splitNl_nl_cons c1 _ h1, splitNl_nl_cons c2 _ h2]
      show c1 :: c2 :: splitNl ('\n' :: joinNl (y :: ys)) = [] ++ [c1, c2, []] ++ y :: ys
      have hnl : splitNl ('\n' :: joinNl (y :: ys)) = [] :: splitNl (joinNl (y :: ys)) := by
        simp [splitNl]
      rw [hnl, joinNl_roundtrip (y :: ys) (by simp) hmem]
      rfl
  | succ n ih =>
    intro L hk hmem
    cases L with
    | nil => simp at hk
    | cons y ys =>
      show splitNl (joinNl (y :: insertAt n (c1 ++ '\n' :: (c2 ++ ['\n'])) ys)) =
        (y :: ys).take (n + 1) ++ [c1, c2, []] ++ (y :: ys).drop (n + 1)
      obtain ⟨z, zs, hzz⟩ :
          ∃ z zs, insertAt n (c1 ++ '\n' :: (c2 ++ ['\n'])) ys = z :: zs := by
        cases h : insertAt n (c1 ++ '\n' :: (c2 ++ ['\n'])) ys with
        | nil => exact absurd h (insertAt_ne_nil n _ ys)
        | cons z zs => exact ⟨z, zs, rfl⟩
      rw [hzz]
      show splitNl (y ++ '\n' :: joinNl (z :: zs)) = _
      rw [splitNl_nl_cons y _ (hmem y (List.mem_cons_self y ys))]
      rw [← hzz, ih ys (by simpa using hk) fun l hl => hmem l (List.mem_cons_of_mem y hl)]
      simp

theorem findIdxAux_lt_length (p : Text → Bool) :
    ∀ (ls : List Text) (k : Nat), findIdxAux p ls = some k → k < ls.length := by
  intro ls
  induction ls with
  | nil => intro k h; simp [findIdxAux] at h
  | cons l ls' ih =>
    intro k h
    simp only [findIdxAux] at h
    by_cases hp : p l = true
    · rw [if_pos hp] at h
      have : k = 0 := by simpa using h.symm
      subst this
      simp
    · rw [if_neg (by simpa using hp)] at h
      rcases Option.map_eq_some'.mp h with ⟨j, hj, hjk⟩
      subst hjk
      have := ih j hj
      simp
      omega

theorem unwrapOne_decomp (g : Guard) (p body s : Text)
    (hf1 : find g.startM (p ++ g.startM ++ body ++ g.endM ++ s) 0 = some p.length)
    (hf2 : find g.endM (p ++ g.startM ++ body ++ g.endM ++ s) p.length =
      some (p.length + g.startM.length + body.length)) :
    unwrapOne g (p ++ g.startM ++ body ++ g.endM ++ s) = p ++ labelOf g ++ body ++ s := by
  unfold unwrapOne
  rw [hf1]
  show unwrapAt g (p ++ g.startM ++ body ++ g.endM ++ s) p.length = _
  unfold unwrapAt
  rw [hf2]
  show (p ++ g.startM ++ body ++ g.endM ++ s).take p.length ++ labelOf g ++
      (((p ++ g.startM ++ body ++ g.endM ++ s).take
        (p.length + g.startM.length + body.length)).drop (p.length + g.startM.length)) ++
      (p ++ g.startM ++ body ++ g.endM ++ s).drop
        (p.length + g.startM.length + body.length + g.endM.length) = p ++ labelOf g ++ body ++ s
  have e1 : (p ++ g.startM ++ body ++ g.endM ++ s).take p.length = p := by
    have h : p ++ g.startM ++ body ++ g.endM ++ s = p ++ (g.startM ++ body ++ g.endM ++ s) := by
      simp [List.append_assoc]
    rw [h, List.take_left]
  have e2 : (p ++ g.startM ++ body ++ g.endM ++ s).take
      (p.length + g.startM.length + body.length) = p ++ g.startM ++ body := by
    have h : p ++ g.startM ++ body ++ g.endM ++ s = (p ++ g.startM ++ body) ++ (g.endM ++ s) := by
      simp [List.append_assoc]
    rw [h, List.take_left' (by simp; omega)]
  have e3 : (p ++ g.startM ++ body).drop (p.length + g.startM.length) = body := by
    have h : p ++ g.startM ++ body = (p ++ g.startM) ++ body := by simp [List.append_assoc]
    rw [h, List.drop_left' (by simp)]
  have e4 : (p ++ g.startM ++ body ++ g.endM ++ s).drop
      (p.length + g.startM.length + body.length + g.endM.length) = s := by
    have h : p ++ g.startM ++ body ++ g.endM ++ s = (p ++ g.startM ++ body ++ g.endM) ++ s := by
      simp [List.append_assoc]
    rw [h, List.drop_left' (by simp; omega)]
  rw [e1, e2, e3, e4]

theorem spliceList_append (l1 l2 : List (MarkerDef × Option Text)) (d : Text) :
    spliceList (l1 ++ l2) d = spliceList l2 (spliceList l1 d) := by
  simp [spliceList]

theorem spliceList_skip (l : List (MarkerDef × Option Text)) (d : Text)
    (h : ∀ mf ∈ l, occurs mf.1.condPat d = false ∧ occurs mf.1.simplePat d = false) :
    spliceList l d = d := by
  induction l with
  | nil => rfl
  | cons mf l' ih =>
    show spliceList l' (processMarker mf.1 mf.2 d) = d
    rcases h mf (List.mem_cons_self mf l') with ⟨h1, h2⟩
    rw [processMarker_skip mf.1 mf.2 d h1 h2]
    exact ih fun x hx => h x (List.mem_cons_of_mem mf hx)

/-! ### Claim theorems -/

/-- C1: the resolved health-check path equals the override value when the
override binds the key to a non-empty value; otherwise it equals the base
value when the base binds the key; otherwise the default /health.  A
present-but-empty override value is ignored. -/
theorem c1_override_precedence (o b : Option Text) (v : Text) :
    (o = some v → v ≠ [] → resolveHealthCheckPath o b = v) ∧
    ((o = none ∨ o = some []) →
      (∀ w, b = some w → resolveHealthCheckPath o b = w) ∧
      (b = none → resolveHealthCheckPath o b = str ("/health"))) := by
  constructor
  · intro ho hv
    subst ho
    simp [resolveHealthCheckPath, hv]
  · intro ho
    rcases ho with ho | ho <;> subst ho <;>
      exact ⟨fun w hw => by subst hw; simp [resolveHealthCheckPath],
        fun hb => by subst hb; simp [resolveHealthCheckPath]⟩

/-- Witness for C1 at the spec's three test points. -/
theorem c1_witness :
    resolveHealthCheckPath (some (str ("/live"))) (some (str ("/status"))) = str ("/live") ∧
    resolveHealthCheckPath (some []) (some (str ("/status"))) = str ("/status") ∧
    resolveHealthCheckPath none none = str ("/health") := by
  refine ⟨?_, ?_, ?_⟩
  · exact (c1_override_precedence (some (str ("/live"))) (some (str ("/status")))
      (str ("/live"))).1 rfl (by decide)
  · exact ((c1_override_precedence (some []) (some (str ("/status")))
      (str ("/live"))).2 (Or.inr rfl)).1 (str ("/status")) rfl
  · exact ((c1_override_precedence none none (str ("/live"))).2 (Or.inl rfl)).2 rfl

/-- C5: when a guard's start marker is absent, or present with no end-marker
occurrence at or after the start position, the unwrap step leaves the
document unchanged. -/
theorem c5_guard_left_intact (g : Guard) (doc : Text) (sp : Nat)
    (hne1 : g.startM ≠ []) (hne2 : g.endM ≠ [])
    (h : countOcc g.startM doc = 0 ∨
      (find g.startM doc 0 = some sp ∧ countOcc g.endM (doc.drop sp) = 0)) :
    unwrapOne g doc = doc := by
  rcases h with h | ⟨h1, h2⟩
  · have hfn : find g.startM doc 0 = none := by
      cases hf : find g.startM doc 0 with
      | none => rfl
      | some k =>
        rcases find_some_elim _ _ _ _ hf with ⟨_, hocc, _⟩
        rw [(countOcc_zero_iff _ hne1 _).mp h k] at hocc
        exact absurd hocc (by simp)
    unfold unwrapOne
    rw [hfn]
  · have hfn : find g.endM doc sp = none := by
      cases hf : find g.endM doc sp with
      | none => rfl
      | some k =>
        rcases find_some_elim _ _ _ _ hf with ⟨hk, hocc, _⟩
        have hpt := (countOcc_zero_iff _ hne2 _).mp h2 (k - sp)
        rw [occAt_drop] at hpt
        have heq : sp + (k - sp) = k := by omega
        rw [heq] at hpt
        rw [hpt] at hocc
        exact absurd hocc (by simp)
    unfold unwrapOne
    rw [h1]
    show unwrapAt g doc sp = doc
    unfold unwrapAt
    rw [hfn]

/-- Witness for C5: the first guard's start marker alone, with no end marker
anywhere, is left byte-for-byte intact. -/
theorem c5_witness : unwrapOne guard1 guard1.startM = guard1.startM := by
  apply c5_guard_left_intact guard1 guard1.startM 0 (by decide) (by decide)
  exact Or.inr ⟨by decide, by decide⟩

/-- C6: the spliced-in text is the fragment stripped of outer whitespace,
split into lines, with each non-blank line prefixed by exactly four spaces
and each blank line left empty. -/
theorem c6_fragment_indentation (c : Text) :
    splitNl (indentFragment c) = (splitNl (pyStrip c)).map indentLine ∧
    (∀ l : Text, (pyStrip l = [] → indentLine l = []) ∧
      (pyStrip l ≠ [] → indentLine l = str ("    ") ++ l)) ∧
    indentFragment (str ("do_thing: 1")) = str ("    do_thing: 1") := by
  refine ⟨?_, ?_, by decide⟩
  · unfold indentFragment
    apply joinNl_roundtrip
    · intro h
      exact splitNl_ne_nil (pyStrip c) (List.map_eq_nil_iff.mp h)
    · intro l hl
      rcases List.mem_map.mp hl with ⟨x, hx, rfl⟩
      unfold indentLine
      by_cases hs : pyStrip x = []
      · simp [hs]
      · rw [if_neg hs]
        intro hmem
        rcases List.mem_append.mp hmem with h | h
        · revert h
          decide
        · exact splitNl_no_nl _ x hx h
  · intro l
    constructor
    · intro h
      simp [indentLine, h]
    · intro h
      simp [indentLine, h]

/-- Witness for C6 on a concrete non-blank line. -/
theorem c6_witness : indentLine (str ("x")) = str ("    x") :=
  ((c6_fragment_indentation []).2.1 (str ("x"))).2 (by decide)

/-- C9: the merged output text does not depend on the service-name argument. -/
theorem c9_service_name_independent (base : Text) (cfg ovr : Option ParsedYaml)
    (fr fd fb fre fh : Option Text) (n1 n2 : Text) :
    mergeTemplate base cfg ovr fr fd fb fre fh n1 =
      mergeTemplate base cfg ovr fr fd fb fre fh n2 := rfl

/-- C10: a config file that parses to YAML null is treated exactly like an
absent file, and resolution falls through to the base value or the default
/health. -/
theorem c10_null_config_like_absent :
    configOrEmpty (some ParsedYaml.null) = configOrEmpty none ∧
    (∀ b : Option ParsedYaml,
      resolveHealthCheckPath (configOrEmpty (some ParsedYaml.null)) (configOrEmpty b) =
        resolveHealthCheckPath (configOrEmpty none) (configOrEmpty b)) ∧
    resolveHealthCheckPath (configOrEmpty (some ParsedYaml.null)) none = str ("/health") ∧
    (∀ w : Text, resolveHealthCheckPath (configOrEmpty (some ParsedYaml.null)) (some w) = w) ∧
    (∀ o : Option Text,
      resolveHealthCheckPath o (configOrEmpty (some ParsedYaml.null)) =
        resolveHealthCheckPath o (configOrEmpty none)) :=
  ⟨rfl, fun _ => rfl, rfl, fun _ => rfl, fun _ => rfl⟩

/-- C3 counterexample: injecting into a three-line document whose declaration
line sits at index 1 yields six lines, with the declaration shifted to index
4, not to index 3 as a two-line shift would give: the injected element ends
with a newline, so three lines are inserted, not two. -/
theorem c3_counterexample :
    (splitNl (injectVar (str ("/health")) (str ("a\n- name: x\nb")))).length = 6 ∧
    (splitNl (injectVar (str ("/health")) (str ("a\n- name: x\nb"))))[4]? =
      some (str ("- name: x")) ∧
    (splitNl (injectVar (str ("/health")) (str ("a\n- name: x\nb"))))[3]? ≠
      some (str ("- name: x")) := by decide

/-- C3 (amended): the Variable Injector inserts a three-line block — the
comment line, the variable-binding directive carrying the resolved path, and
a blank line — immediately before the first declaration line (at the very
start when no such line exists), shifting subsequent lines by exactly three. -/
theorem c3_amended_injection (hcp doc : Text) (k : Nat) (hn : '\n' ∉ hcp) :
    (findIdxAux declStart (splitNl doc) = some k →
      splitNl (injectVar hcp doc) =
        (splitNl doc).take k ++
          [str ("# Health check path from service configuration"),
           str ("\x7b% set health_check_path = \x27") ++ hcp ++ str ("\x27 %\x7d"), []] ++
          (splitNl doc).drop k) ∧
    (findIdxAux declStart (splitNl doc) = none →
      splitNl (injectVar hcp doc) =
        [str ("# Health check path from service configuration"),
         str ("\x7b% set health_check_path = \x27") ++ hcp ++ str ("\x27 %\x7d"), []] ++
          splitNl doc) := by
  have hV : healthVar hcp =
      str ("# Health check path from service configuration") ++ '\n' ::
        ((str ("\x7b% set health_check_path = \x27") ++ hcp ++ str ("\x27 %\x7d")) ++ ['\n']) := by
    unfold healthVar
    have h1 : str ("# Health check path from service configuration\n") =
        str ("# Health check path from service configuration") ++ ['\n'] := by decide
    have h2 : str ("\n") = ['\n'] := by decide
    rw [h1, h2]
    simp [List.append_assoc]
  have hc1 : '\n' ∉ str ("# Health check path from service configuration") := by decide
  have hc2 : '\n' ∉ str ("\x7b% set health_check_path = \x27") ++ hcp ++ str ("\x27 %\x7d") := by
    intro hmem
    rcases List.mem_append.mp hmem with h | h
    · rcases List.mem_append.mp h with h' | h'
      · revert h'
        decide
      · exact hn h'
    · revert h
      decide
  constructor
  · intro hk
    unfold injectVar insertIndex
    rw [hk]
    show splitNl (joinNl (insertAt k (healthVar hcp) (splitNl doc))) = _
    rw [hV]
    exact splitNl_insert _ _ hc1 hc2 k (splitNl doc)
      (Nat.le_of_lt (findIdxAux_lt_length declStart (splitNl doc) k hk)) (splitNl_no_nl doc)
  · intro hk
    unfold injectVar insertIndex
    rw [hk]
    show splitNl (joinNl (insertAt 0 (healthVar hcp) (splitNl doc))) = _
    rw [hV]
    have := splitNl_insert _ _ hc1 hc2 0 (splitNl doc) (Nat.zero_le _) (splitNl_no_nl doc)
    simpa using this

/-- Witness for the amended C3 on a concrete document with the declaration
line at index 1. -/
theorem c3_amended_witness :
    splitNl (injectVar (str ("/health")) (str ("a\n- name: x\nb"))) =
      (splitNl (str ("a\n- name: x\nb"))).take 1 ++
        [str ("# Health check path from service configuration"),
         str ("\x7b% set health_check_path = \x27") ++ str ("/health") ++ str ("\x27 %\x7d"), []] ++
        (splitNl (str ("a\n- name: x\nb"))).drop 1 :=
  (c3_amended_injection (str ("/health")) (str ("a\n- name: x\nb")) 1 (by decide)).1 (by decide)

/-- C8 counterexample: when a document holds a marker's conditional pattern
and, disjointly, its simple pattern, the first splicer application removes
only the conditional (the simple pattern survives), so a second application
still finds the simple pattern and changes the text — splicing is not
idempotent per marker on such documents. -/
theorem c8_counterexample :
    processMarker runtimeInstall none
        (processMarker runtimeInstall none
          (runtimeInstall.condPat ++ str ("\n") ++ runtimeInstall.simplePat)) ≠
      processMarker runtimeInstall none
        (runtimeInstall.condPat ++ str ("\n") ++ runtimeInstall.simplePat) := by decide

/-- C8 (amended): per-marker splicing is idempotent whenever the first
application leaves no occurrence of that marker's conditional or simple
pattern in its output; the second application then passes the text through
unchanged. -/
theorem c8_amended_idempotent (m : MarkerDef) (hm : m ∈ markers) (f : Option Text) (d : Text)
    (h1 : countOcc m.condPat (processMarker m f d) = 0)
    (h2 : countOcc m.simplePat (processMarker m f d) = 0) :
    processMarker m f (processMarker m f d) = processMarker m f d := by
  have hne1 : m.condPat ≠ [] := by fin_cases hm <;> decide
  have hne2 : m.simplePat ≠ [] := by fin_cases hm <;> decide
  exact processMarker_skip m f _ (occurs_false_of_countOcc _ _ hne1 h1)
    (occurs_false_of_countOcc _ _ hne2 h2)

/-- Witness for the amended C8 on a document holding only the simple pattern. -/
theorem c8_amended_witness :
    processMarker runtimeInstall none
        (processMarker runtimeInstall none
          (str ("A\n") ++ runtimeInstall.simplePat ++ str ("\nB"))) =
      processMarker runtimeInstall none
        (str ("A\n") ++ runtimeInstall.simplePat ++ str ("\nB")) :=
  c8_amended_idempotent runtimeInstall (by decide) none
    (str ("A\n") ++ runtimeInstall.simplePat ++ str ("\nB")) (by decide) (by decide)

/-- C7: with the fragment file present, the conditional pattern (when it is
the leftmost occurrence and occurs nowhere else) is replaced by the
4-space-indented label line derived from the marker name followed by the
indented fragment; the simple pattern is tried only when the conditional is
absent and is replaced by the indented fragment alone; with neither pattern
present the document is unchanged. -/
theorem c7_replacement_priority (m : MarkerDef) (hm : m ∈ markers) (c a b : Text) :
    (find m.condPat (a ++ m.condPat ++ b) 0 = some a.length →
      countOcc m.condPat b = 0 →
      processMarker m (some c) (a ++ m.condPat ++ b) =
        a ++ (labelFor m ++ str ("\n") ++ indentFragment c) ++ b) ∧
    (occurs m.condPat (a ++ m.simplePat ++ b) = false →
      find m.simplePat (a ++ m.simplePat ++ b) 0 = some a.length →
      countOcc m.simplePat b = 0 →
      processMarker m (some c) (a ++ m.simplePat ++ b) = a ++ indentFragment c ++ b) ∧
    (∀ d, occurs m.condPat d = false → occurs m.simplePat d = false →
      processMarker m (some c) d = d) := by
  have hne1 : m.condPat ≠ [] := by fin_cases hm <;> decide
  have hne2 : m.simplePat ≠ [] := by fin_cases hm <;> decide
  exact ⟨fun hf hb => processMarker_some_cond m c a b hne1 hf hb,
    fun hnc hf hb => processMarker_some_simple m c a b hne2 hnc hf hb,
    fun d h1 h2 => processMarker_skip m (some c) d h1 h2⟩

/-- Witness for C7: conditional-pattern replacement with label on a concrete
document and fragment. -/
theorem c7_witness :
    processMarker runtimeInstall (some (str ("do_thing: 1")))
        (str ("A\n") ++ runtimeInstall.condPat ++ str ("\nB")) =
      str ("A\n") ++
        (labelFor runtimeInstall ++ str ("\n") ++ indentFragment (str ("do_thing: 1"))) ++
        str ("\nB") :=
  (c7_replacement_priority runtimeInstall (by decide) (str ("do_thing: 1"))
    (str ("A\n")) (str ("\nB"))).1 (by decide) (by decide)

/-- C4: for a document containing one of the two service-management guards —
start marker first found at the exhibited position, end marker first found
right after the guarded body — unwrapping preserves the body verbatim with
the guard's label directly before it; and when the condition directive and
the label occur nowhere else (and no occurrence crosses the splice
boundaries), the output holds the condition directive zero times and the
label exactly once. -/
theorem c4_unwrap_preserves_body (g : Guard) (p body s : Text)
    (hg : g = guard1 ∨ g = guard2)
    (hf1 : find g.startM (p ++ g.startM ++ body ++ g.endM ++ s) 0 = some p.length)
    (hf2 : find g.endM (p ++ g.startM ++ body ++ g.endM ++ s) p.length =
      some (p.length + g.startM.length + body.length))
    (hp1 : countOcc ifDirective p = 0) (hb1 : countOcc ifDirective body = 0)
    (hs1 : countOcc ifDirective s = 0)
    (hp2 : countOcc (labelOf g) p = 0) (hb2 : countOcc (labelOf g) body = 0)
    (hs2 : countOcc (labelOf g) s = 0)
    (n1 : noCrossB ifDirective p (labelOf g ++ (body ++ s)) = true)
    (n2 : noCrossB ifDirective (labelOf g) (body ++ s) = true)
    (n3 : noCrossB ifDirective body s = true)
    (n4 : noCrossB (labelOf g) p (labelOf g ++ (body ++ s)) = true)
    (n5 : noCrossB (labelOf g) (labelOf g) (body ++ s) = true)
    (n6 : noCrossB (labelOf g) body s = true) :
    unwrapOne g (p ++ g.startM ++ body ++ g.endM ++ s) = p ++ labelOf g ++ body ++ s ∧
    countOcc ifDirective (p ++ labelOf g ++ body ++ s) = 0 ∧
    countOcc (labelOf g) (p ++ labelOf g ++ body ++ s) = 1 := by
  have heq := unwrapOne_decomp g p body s hf1 hf2
  have hX : (p ++ labelOf g ++ body ++ s : Text) = p ++ (labelOf g ++ (body ++ s)) := by
    simp [List.append_assoc]
  have hl0 : countOcc ifDirective (labelOf g) = 0 := by
    rcases hg with rfl | rfl <;> decide
  have hl1 : countOcc (labelOf g) (labelOf g) = 1 := by
    rcases hg with rfl | rfl <;> decide
  refine ⟨heq, ?_, ?_⟩
  · rw [hX, countOcc_append_of_noCrossB _ _ _ n1, countOcc_append_of_noCrossB _ _ _ n2,
      countOcc_append_of_noCrossB _ _ _ n3, hp1, hb1, hs1, hl0]
  · rw [hX, countOcc_append_of_noCrossB _ _ _ n4, countOcc_append_of_noCrossB _ _ _ n5,
      countOcc_append_of_noCrossB _ _ _ n6, hp2, hb2, hs2, hl1]

/-- Witness for C4: the first guard around a concrete three-line body. -/
theorem c4_witness :
    unwrapOne guard1
        (str ("X\n") ++ guard1.startM ++ str ("\nB: 1\n") ++ guard1.endM ++ str ("\nY")) =
      str ("X\n") ++ labelOf guard1 ++ str ("\nB: 1\n") ++ str ("\nY") :=
  (c4_unwrap_preserves_body guard1 (str ("X\n")) (str ("\nB: 1\n")) (str ("\nY"))
    (Or.inl rfl) (by decide) (by decide) (by decide) (by decide) (by decide)
    (by decide) (by decide) (by decide) (by decide) (by decide) (by decide)
    (by decide) (by decide) (by decide)).1

/-- C2 counterexample: with no fragment files, a base template holding a
marker's conditional pattern and, disjointly, its simple pattern keeps one
occurrence of the simple pattern in the merged output — the removal branch
is an else-if, so only the conditional form is deleted. -/
theorem c2_counterexample :
    spliceNoFrags (runtimeInstall.condPat ++ str ("\n") ++ runtimeInstall.simplePat) =
      str ("\n") ++ runtimeInstall.simplePat ∧
    countOcc runtimeInstall.simplePat
      (spliceNoFrags (runtimeInstall.condPat ++ str ("\n") ++ runtimeInstall.simplePat)) = 1 := by
  decide

/-- C2 (amended): with none of the five fragment files present, merging a
base template that holds a single marker-pattern occurrence (a conditional
pattern, or a simple pattern with the conditional absent) whose removal
leaves a residue free of all ten patterns yields exactly that residue, which
holds zero occurrences of every conditional and simple pattern.  As
originally stated the claim fails: only the first-found pattern form is
removed per marker, and deletion can juxtapose fresh occurrences. -/
theorem c2_amended_no_markers_left (m : MarkerDef) (hm : m ∈ markers) (a b P : Text)
    (hform : P = m.condPat ∨ (P = m.simplePat ∧ countOcc m.condPat (a ++ P ++ b) = 0))
    (hfind : find P (a ++ P ++ b) 0 = some a.length)
    (hPb : countOcc P b = 0)
    (hres : ∀ Q ∈ allPats, countOcc Q (a ++ b) = 0)
    (hothers : ∀ Q ∈ allPats, Q ≠ m.condPat → Q ≠ m.simplePat → countOcc Q (a ++ P ++ b) = 0) :
    spliceNoFrags (a ++ P ++ b) = a ++ b ∧
    ∀ Q ∈ allPats, countOcc Q (spliceNoFrags (a ++ P ++ b)) = 0 := by
  have hne1 : m.condPat ≠ [] := by fin_cases hm <;> decide
  have hne2 : m.simplePat ≠ [] := by fin_cases hm <;> decide
  have hmstep : processMarker m none (a ++ P ++ b) = a ++ b := by
    rcases hform with rfl | ⟨rfl, hcc⟩
    · exact processMarker_none_cond m a b hne1 hfind hPb
    · exact processMarker_none_simple m a b hne2
        (occurs_false_of_countOcc _ _ hne1 hcc) hfind hPb
  have hskipdoc : ∀ m' : MarkerDef, m' ∈ markers →
      m'.condPat ≠ m.condPat → m'.condPat ≠ m.simplePat →
      m'.simplePat ≠ m.condPat → m'.simplePat ≠ m.simplePat →
      processMarker m' none (a ++ P ++ b) = a ++ P ++ b := by
    intro m' hm' q1 q2 q3 q4
    apply processMarker_skip
    · refine occurs_false_of_countOcc _ _ ?_ (hothers m'.condPat ?_ q1 q2)
      · fin_cases hm' <;> decide
      · fin_cases hm' <;> decide
    · refine occurs_false_of_countOcc _ _ ?_ (hothers m'.simplePat ?_ q3 q4)
      · fin_cases hm' <;> decide
      · fin_cases hm' <;> decide
  have hskipres : ∀ m' : MarkerDef, m' ∈ markers →
      processMarker m' none (a ++ b) = a ++ b := by
    intro m' hm'
    apply processMarker_skip
    · refine occurs_false_of_countOcc _ _ ?_ (hres m'.condPat ?_)
      · fin_cases hm' <;> decide
      · fin_cases hm' <;> decide
    · refine occurs_false_of_countOcc _ _ ?_ (hres m'.simplePat ?_)
      · fin_cases hm' <;> decide
      · fin_cases hm' <;> decide
  have hmain : spliceNoFrags (a ++ P ++ b) = a ++ b := by
    fin_cases hm
    · show spliceList
        [(runtimeInstall, none), (dependencyInstall, none), (buildTasks, none),
         (redeployTasks, none), (healthCheck, none)] (a ++ P ++ b) = a ++ b
      simp only [spliceList, List.foldl]
      rw [hmstep, hskipres dependencyInstall (by decide), hskipres buildTasks (by decide),
        hskipres redeployTasks (by decide), hskipres healthCheck (by decide)]
    · show spliceList
        [(runtimeInstall, none), (dependencyInstall, none), (buildTasks, none),
         (redeployTasks, none), (healthCheck, none)] (a ++ P ++ b) = a ++ b
      simp only [spliceList, List.foldl]
      rw [hskipdoc runtimeInstall (by decide) (by decide) (by decide) (by decide) (by decide),
        hmstep, hskipres buildTasks (by decide),
        hskipres redeployTasks (by decide), hskipres healthCheck (by decide)]
    · show spliceList
        [(runtimeInstall, none), (dependencyInstall, none), (buildTasks, none),
         (redeployTasks, none), (healthCheck, none)] (a ++ P ++ b) = a ++ b
      simp only [spliceList, List.foldl]
      rw [hskipdoc runtimeInstall (by decide) (by decide) (by decide) (by decide) (by decide),
        hskipdoc dependencyInstall (by decide) (by decide) (by decide) (by decide) (by decide),
        hmstep, hskipres redeployTasks (by decide), hskipres healthCheck (by decide)]
    · show spliceList
        [(runtimeInstall, none), (dependencyInstall, none), (buildTasks, none),
         (redeployTasks, none), (healthCheck, none)] (a ++ P ++ b) = a ++ b
      simp only [spliceList, List.foldl]
      rw [hskipdoc runtimeInstall (by decide) (by decide) (by decide) (by decide) (by decide),
        hskipdoc dependencyInstall (by decide) (by decide) (by decide) (by decide) (by decide),
        hskipdoc buildTasks (by decide) (by decide) (by decide) (by decide) (by decide),
        hmstep, hskipres healthCheck (by decide)]
    · show spliceList
        [(runtimeInstall, none), (dependencyInstall, none), (buildTasks, none),
         (redeployTasks, none), (healthCheck, none)] (a ++ P ++ b) = a ++ b
      simp only [spliceList, List.foldl]
      rw [hskipdoc runtimeInstall (by decide) (by decide) (by decide) (by decide) (by decide),
        hskipdoc dependencyInstall (by decide) (by decide) (by decide) (by decide) (by decide),
        hskipdoc buildTasks (by decide) (by decide) (by decide) (by decide) (by decide),
        hskipdoc redeployTasks (by decide) (by decide) (by decide) (by decide) (by decide),
        hmstep]
  exact ⟨hmain, fun Q hQ => by rw [hmain]; exact hres Q hQ⟩

/-- Witness for the amended C2: a lone conditional pattern occurrence is
removed and nothing remains. -/
theorem c2_amended_witness :
    spliceNoFrags (str ("A\n") ++ runtimeInstall.condPat ++ str ("\nB")) =
      str ("A\n") ++ str ("\nB") :=
  (c2_amended_no_markers_left runtimeInstall (by decide) (str ("A\n")) (str ("\nB"))
    runtimeInstall.condPat (Or.inl rfl) (by decide) (by decide) (by decide) (by decide)).1
